import Mathlib

/-!
Shallow embedding of the msvc-code-analysis-action core (src/index.js):
argument quoting, MSVC path conventions, the CMake file-API reply loading
state machine, and the compile-command reconstruction iterator, together
with theorems checking the specification's claims against this embedding.

Strings are modelled by Lean `String` (JavaScript string comparison on
ASCII data agrees with `String.lt`); JavaScript exceptions are modelled by
`Except JsError`; a JavaScript property that may be absent (`undefined`)
is modelled by `Option`.
-/

namespace MsvcAnalyze

/-- Errors thrown by the action core. Each constructor corresponds to one
`throw new Error(...)` site (or a JavaScript runtime `TypeError`) in
src/index.js. -/
inductive JsError where
  /-- "Failed to find CMake API reply file" (missing or empty path). -/
  | missingReplyFile (path : String)
  /-- "Failed to load cache response from CMake API". -/
  | cacheResponseMissing
  /-- "Failed to load codemodel response from CMake API". -/
  | codemodelResponseMissing
  /-- "Action requires CMake version >= 3.13.7". -/
  | versionTooOld
  /-- "Action requires use of MSVC for either/both C or C++.". -/
  | msvcRequired
  /-- JavaScript runtime TypeError, e.g. property access on `undefined`. -/
  | typeError (msg : String)
  /-- "CMakeApi: getCompileCommands called before API is loaded". -/
  | notLoaded
  deriving DecidableEq, Repr

/-! ## ArgumentQuoting (src/index.js `escapeArgument`, lines 16-29) -/

/-- Number of consecutive `'\\'` characters at the end of the list.
Embeds the while loop `while (i < arg.length && arg[arg.length - 1 - i] == '\\') i++;`
which counts the trailing-backslash run of the string. -/
def trailingBackslashCount (l : List Char) : Nat :=
  (l.reverse.takeWhile (fun c => c = '\\')).length

/-- `escapeArgument(arg)`: count the trailing backslashes, append that many
additional backslashes (`arg += new Array(i + 1).join('\\')` appends `i`
backslashes), and wrap the result in double quotes. -/
def escapeArgument (arg : String) : String :=
  let i := trailingBackslashCount arg.data
  let arg' := if i > 0 then arg ++ String.mk (List.replicate i '\\') else arg
  "\"" ++ arg' ++ "\""

/-- Modelled from the spec: the unquoting operation referenced by the
round-trip property ("unquoting the quoted form of `s`"). It is not part of
src/index.js; it follows the MSVC command-line rule the spec relies on:
strip the surrounding double quotes, then halve the trailing-backslash run
of the body (2n backslashes before a closing quote denote n backslashes). -/
def unquoteArgument (s : String) : String :=
  let body := (s.data.drop 1).dropLast
  let k := trailingBackslashCount body
  String.mk (body.take (body.length - k / 2))

/-- Whether a character list ends in an escaped closing quote: a final `'"'`
preceded by an odd run of backslashes. -/
def endsEscapedQuote (l : List Char) : Bool :=
  decide (l.getLast? = some '"') && decide (trailingBackslashCount l.dropLast % 2 = 1)

theorem trailingBackslashCount_append_replicate (l : List Char) (n : Nat) :
    trailingBackslashCount (l ++ List.replicate n '\\') = trailingBackslashCount l + n := by
  unfold trailingBackslashCount
  rw [List.reverse_append, List.reverse_replicate]
  induction n with
  | zero => simp
  | succ m ih =>
    rw [List.replicate_succ, List.cons_append, List.takeWhile_cons]
    simp only [decide_eq_true_eq, if_true]
    simp only [if_pos trivial, List.length_cons, ih]
    omega

theorem takeWhile_append_not (p : Char → Bool) (c : Char) (hc : p c = false) :
    ∀ xs : List Char, (xs ++ [c]).takeWhile p = xs.takeWhile p := by
  intro xs
  induction xs with
  | nil => simp [List.takeWhile, hc]
  | cons x t ih =>
    rw [List.cons_append, List.takeWhile_cons, List.takeWhile_cons]
    cases p x <;> simp [ih]

theorem trailingBackslashCount_cons_quote (l : List Char) :
    trailingBackslashCount ('"' :: l) = trailingBackslashCount l := by
  unfold trailingBackslashCount
  rw [List.reverse_cons, takeWhile_append_not]
  decide

theorem data_append (a b : String) : (a ++ b).data = a.data ++ b.data := by
  cases a; cases b; rfl

/-- The quoted form of `s` as raw character data: a quote, the original
characters, one extra backslash per trailing backslash of `s`, a quote. -/
theorem escapeArgument_data (s : String) :
    (escapeArgument s).data =
      '"' :: (s.data ++ List.replicate (trailingBackslashCount s.data) '\\') ++ ['"'] := by
  unfold escapeArgument
  by_cases h : trailingBackslashCount s.data > 0
  · simp only [h, if_pos]
    rw [data_append, data_append]
    simp [data_append]
  · simp only [h, if_neg]
    have h0 : trailingBackslashCount s.data = 0 := by omega
    rw [h0]
    rw [data_append, data_append]
    simp

theorem string_eq_of_data_eq {a b : String} (h : a.data = b.data) : a = b := by
  cases a; cases b; exact congrArg String.mk h

theorem mk_data (s : String) : String.mk s.data = s := by
  cases s; rfl

/-- Unquoting the quoted form of a token recovers the token exactly. -/
theorem unquoteArgument_escapeArgument (s : String) :
    unquoteArgument (escapeArgument s) = s := by
  have hbody : ((escapeArgument s).data.drop 1).dropLast
      = s.data ++ List.replicate (trailingBackslashCount s.data) '\\' := by
    rw [escapeArgument_data]
    simp
  simp only [unquoteArgument]
  rw [hbody]
  rw [trailingBackslashCount_append_replicate]
  have hdiv : (trailingBackslashCount s.data + trailingBackslashCount s.data) / 2
      = trailingBackslashCount s.data := by omega
  rw [hdiv]
  have hlen : (s.data ++ List.replicate (trailingBackslashCount s.data) '\\').length
        - trailingBackslashCount s.data = s.data.length := by
    simp
  rw [hlen]
  rw [List.take_left]

/-- C2: quoting a token appends exactly as many additional backslashes as the
token's trailing-backslash run (doubling that run) and wraps the result in
double quotes; unquoting the quoted form yields a token whose
trailing-backslash run length equals the original's; and the quoted form
never ends in an escaped (backslash-preceded) closing quote. -/
theorem escapeArgument_roundTrip (s : String) :
    escapeArgument s =
      "\"" ++ (s ++ String.mk (List.replicate (trailingBackslashCount s.data) '\\')) ++ "\"" ∧
    trailingBackslashCount (unquoteArgument (escapeArgument s)).data
      = trailingBackslashCount s.data ∧
    endsEscapedQuote (escapeArgument s).data = false := by
  refine ⟨?_, ?_, ?_⟩
  · apply string_eq_of_data_eq
    rw [escapeArgument_data, data_append, data_append, data_append]
    simp
  · rw [unquoteArgument_escapeArgument]
  · rw [escapeArgument_data]
    unfold endsEscapedQuote
    rw [List.cons_append]
    have hlast : ('"' :: ((s.data ++ List.replicate (trailingBackslashCount s.data) '\\') ++ ['"'])).getLast?
        = some '"' := by
      rw [← List.cons_append, List.getLast?_concat]
    have hdropLast : ('"' :: ((s.data ++ List.replicate (trailingBackslashCount s.data) '\\') ++ ['"'])).dropLast
        = '"' :: (s.data ++ List.replicate (trailingBackslashCount s.data) '\\') := by
      rw [← List.cons_append, List.dropLast_concat]
    rw [hlast, hdropLast, trailingBackslashCount_cons_quote,
      trailingBackslashCount_append_replicate]
    have hmod : (trailingBackslashCount s.data + trailingBackslashCount s.data) % 2 = 0 := by
      omega
    rw [hmod]
    simp

/-- C10: for a token whose final character is not a backslash, quoting returns
exactly the token wrapped in one leading and one trailing double quote, with no
interior character altered or escaped. -/
theorem escapeArgument_noTrailingBackslash (s : String)
    (h : s.data.getLast? ≠ some '\\') :
    escapeArgument s = "\"" ++ s ++ "\"" := by
  have h0 : trailingBackslashCount s.data = 0 := by
    unfold trailingBackslashCount
    rw [← List.head?_reverse] at h
    cases hrev : s.data.reverse with
    | nil => simp
    | cons a t =>
      rw [hrev] at h
      simp only [List.head?_cons, ne_eq, Option.some.injEq] at h
      rw [List.takeWhile_cons]
      simp [h]
  unfold escapeArgument
  rw [h0]
  simp

/-- Witness for C10 at a token with an embedded double quote and a
non-backslash final character. -/
theorem escapeArgument_noTrailingBackslash_witness :
    escapeArgument "a\"b" = "\"a\"b\"" :=
  escapeArgument_noTrailingBackslash "a\"b" (by decide)

/-! ## Version gate (src/index.js lines 298-300 and 415-417) -/

/-- The protocol version gate: `if (indexReply.version.string < "3.13.7")
throw new Error("Action requires CMake version >= 3.13.7")`. JavaScript `<`
on strings is lexicographic code-unit comparison, which agrees with Lean's
`String` order on this data. -/
def versionGate (versionString : String) : Except JsError Unit :=
  if versionString < "3.13.7" then .error .versionTooOld else .ok ()

/-- C5: the version gate accepts an index exactly when its version string is
lexicographically at least "3.13.7"; "3.13.6" fails while "3.13.7" and
"3.20.0" pass. -/
theorem versionGate_spec :
    (∀ s : String, versionGate s = .ok () ↔ "3.13.7" ≤ s) ∧
    versionGate "3.13.6" = .error .versionTooOld ∧
    versionGate "3.13.7" = .ok () ∧
    versionGate "3.20.0" = .ok () := by
  have h6 : ("3.13.6" : String) < "3.13.7" := by
    rw [String.lt_iff_toList_lt]; decide
  have h7 : ¬ ("3.13.7" : String) < "3.13.7" := by
    rw [String.lt_iff_toList_lt]; decide
  have h20 : ¬ ("3.20.0" : String) < "3.13.7" := by
    rw [String.lt_iff_toList_lt]; decide
  refine ⟨fun s => ?_, ?_, ?_, ?_⟩
  · by_cases h : s < "3.13.7"
    · exact iff_of_false (by rw [versionGate, if_pos h]; simp) (not_le.mpr h)
    · exact iff_of_true (by rw [versionGate, if_neg h]) (not_lt.mp h)
  · rw [versionGate, if_pos h6]
  · rw [versionGate, if_neg h7]
  · rw [versionGate, if_neg h20]

/-! ## Path conventions (src/index.js `extractVersionFromCompilerPath`,
`extractIncludesFromCompilerPath`, lines 37-51) -/

/-- Split a character list into path components; both `'/'` and `'\\'`
separate components, modelling Node's handling of Windows paths. -/
def pathSplitChars : List Char → List Char → List String
  | [], cur => [String.mk cur.reverse]
  | c :: rest, cur =>
      if c = '/' ∨ c = '\\' then String.mk cur.reverse :: pathSplitChars rest []
      else pathSplitChars rest (c :: cur)

/-- The components of a path string. -/
def pathSplit (s : String) : List String := pathSplitChars s.data []

/-- One normalization step of Node's `path.join`/`path.normalize` over the
components being appended: `".."` removes the last component so far, `"."`
and empty segments disappear, any other segment is appended. -/
def applySegment (acc : List String) (seg : String) : List String :=
  if seg = ".." then acc.dropLast
  else if seg = "." ∨ seg = "" then acc
  else acc ++ [seg]

/-- Join a base component list with further segments, normalizing the added
segments as Node's `path.join` does. -/
def pathJoinSegs (base : List String) (rel : List String) : List String :=
  rel.foldl applySegment base

/-- Render a component list back to a Windows path string, as Node's
`path.join`/`path.normalize` do for Windows paths. -/
def pathRender (components : List String) : String :=
  String.intercalate "\\" components

/-- Model of `path.join(a, b)` for Windows paths. -/
def pathJoin (a b : String) : String :=
  pathRender (pathJoinSegs (pathSplit a) (pathSplit b))

/-- `extractVersionFromCompilerPath`: `versionDir = path.join(compilerPath,
"../../..")`, then `path.basename(versionDir)`. The basename of a path is its
final component, taken here directly from the joined component list. -/
def extractVersionFromCompilerPath (compilerPath : String) : String :=
  ((pathJoinSegs (pathSplit compilerPath) (pathSplit "../../..")).getLast?).getD ""

/-- `extractIncludesFromCompilerPath`: the single directory
`path.normalize(path.join(compilerPath, "../../../include"))`. -/
def extractIncludesFromCompilerPath (compilerPath : String) : List String :=
  [pathRender (pathJoinSegs (pathSplit compilerPath) (pathSplit "../../../include"))]

theorem pathSplit_dotdot3 : pathSplit "../../.." = ["..", "..", ".."] := by decide

theorem pathSplit_dotdot3_include :
    pathSplit "../../../include" = ["..", "..", "..", "include"] := by decide

theorem dropLast_append_singleton (l : List String) (x : String) :
    (l ++ [x]).dropLast = l :=
  List.dropLast_concat

/-- C7: for every compiler path with at least three directory levels above
the binary, the derived version is the basename (last component) of the
directory three levels up from the binary, and the derived includes are
exactly the sibling include directory under that same directory. -/
theorem extractVersionIncludes_spec (p : String) (pre : List String)
    (a b c d : String) (h : pathSplit p = pre ++ [a, b, c, d]) :
    extractVersionFromCompilerPath p = a ∧
    extractIncludesFromCompilerPath p = [pathRender (pre ++ [a, "include"])] := by
  have hdrop3 : pathJoinSegs (pathSplit p) ["..", "..", ".."] = pre ++ [a] := by
    rw [h]
    show applySegment (applySegment (applySegment (pre ++ [a, b, c, d]) "..") "..") ".." = pre ++ [a]
    rw [applySegment, if_pos rfl, applySegment, if_pos rfl, applySegment, if_pos rfl]
    rw [show pre ++ [a, b, c, d] = (pre ++ [a, b, c]) ++ [d] by simp,
      dropLast_append_singleton,
      show pre ++ [a, b, c] = (pre ++ [a, b]) ++ [c] by simp,
      dropLast_append_singleton,
      show pre ++ [a, b] = (pre ++ [a]) ++ [b] by simp,
      dropLast_append_singleton]
  constructor
  · rw [extractVersionFromCompilerPath, pathSplit_dotdot3, hdrop3]
    rw [List.getLast?_concat]
    rfl
  · rw [extractIncludesFromCompilerPath, pathSplit_dotdot3_include]
    have : pathJoinSegs (pathSplit p) ["..", "..", "..", "include"]
        = (pre ++ [a]) ++ ["include"] := by
      show applySegment (pathJoinSegs (pathSplit p) ["..", "..", ".."]) "include"
          = (pre ++ [a]) ++ ["include"]
      rw [hdrop3, applySegment]
      rw [if_neg (by decide), if_neg (by decide)]
    rw [this]
    rw [List.append_assoc]
    rfl

/-- Witness for C7 at a concrete MSVC-style compiler path. -/
theorem extractVersionIncludes_spec_witness :
    extractVersionFromCompilerPath "MSVC\\14.29.30133\\bin\\Hostx64\\x64\\cl.exe" = "bin" ∧
    extractIncludesFromCompilerPath "MSVC\\14.29.30133\\bin\\Hostx64\\x64\\cl.exe"
      = [pathRender (["MSVC", "14.29.30133"] ++ ["bin", "include"])] :=
  extractVersionIncludes_spec "MSVC\\14.29.30133\\bin\\Hostx64\\x64\\cl.exe"
    ["MSVC", "14.29.30133"] "bin" "Hostx64" "x64" "cl.exe" (by decide)

/-! ## ToolchainResolver cache fallback (src/index.js
`_loadToolchainsFromCache`, lines 268-290) -/

/-- Resolved compiler information: `{path, version, includes}`. -/
structure CompilerInfo where
  path : String
  version : String
  includes : List String
  deriving DecidableEq, Repr

/-- `_loadToolchainsFromCache`: read `CMAKE_C_COMPILER` and
`CMAKE_CXX_COMPILER` from the cache and accept each if its value ends in
`cl.exe` or `cl`. In JavaScript, `this.cache[name]` is `undefined` when the
variable is absent, and calling `.endsWith` on `undefined` throws a
`TypeError`; that throw is modelled by the `none` branches. Returns the pair
(C compiler info, C++ compiler info); throws when neither resolves. -/
def _loadToolchainsFromCache (cache : String → Option String) :
    Except JsError (Option CompilerInfo × Option CompilerInfo) :=
  match cache "CMAKE_C_COMPILER" with
  | none => .error (.typeError "Cannot read properties of undefined (reading endsWith)")
  | some cPath =>
    let cInfo := if cPath.endsWith "cl.exe" || cPath.endsWith "cl" then
        some { path := cPath, version := extractVersionFromCompilerPath cPath,
               includes := extractIncludesFromCompilerPath cPath }
      else none
    match cache "CMAKE_CXX_COMPILER" with
    | none => .error (.typeError "Cannot read properties of undefined (reading endsWith)")
    | some cxxPath =>
      let cxxInfo := if cxxPath.endsWith "cl.exe" || cxxPath.endsWith "cl" then
          some { path := cxxPath, version := extractVersionFromCompilerPath cxxPath,
                 includes := extractIncludesFromCompilerPath cxxPath }
        else none
      if cInfo.isNone && cxxInfo.isNone then .error .msvcRequired
      else .ok (cInfo, cxxInfo)

/-- A cache holding only `CMAKE_CXX_COMPILER`, set to an MSVC compiler path,
with `CMAKE_C_COMPILER` absent. -/
def cacheCxxOnly : String → Option String := fun k =>
  if k = "CMAKE_CXX_COMPILER"
  then some "C:\\VS\\MSVC\\14.29.30133\\bin\\Hostx64\\x64\\cl.exe"
  else none

/-- C6 (divergence): with `CMAKE_CXX_COMPILER` set to a `cl.exe` path and
`CMAKE_C_COMPILER` absent, the cache fallback does not succeed: reading
`.endsWith` of the absent C entry throws a TypeError, contradicting the
claimed no-error C++-only resolution. -/
theorem loadToolchainsFromCache_missingC_typeError :
    _loadToolchainsFromCache cacheCxxOnly
      = .error (.typeError "Cannot read properties of undefined (reading endsWith)") := by
  rfl

/-! ## loadApi step sequence (src/index.js `loadApi`, lines 387-428) -/

/-- The externally observable steps of `loadApi`, in program order. -/
inductive LoadEvent where
  /-- `findExecutableOnPath("cmake.exe")`. -/
  | findCMake
  /-- `this._getApiReplyIndex(apiDir)` (line 404). -/
  | readIndex
  /-- `this._createApiQuery(apiDir)`: query.json is written (line 406). -/
  | createApiQuery
  /-- `child_process.spawn(cmakePath, buildRoot, ...)` starts the build tool
  (line 409). -/
  | spawnStart
  /-- The spawned child process exits and the parent has waited for it. -/
  | childExit
  /-- `throw new Error("Action requires CMake version >= 3.13.7")` (line 417). -/
  | versionError
  /-- `fs.existsSync(apiDir)` check (line 421). -/
  | checkApiDir
  /-- `this._loadReplyFiles(apiDir)` (line 425). -/
  | loadReplyFiles
  /-- `this.loaded = true` (line 427). -/
  | markLoaded
  deriving DecidableEq, Repr

/-- The trace of `loadApi` as a function of the version string reported by
the pre-existing reply index. `child_process.spawn` returns as soon as the
child is started and `loadApi` never waits on it, so no `childExit` event
appears anywhere in the trace; the version check (line 415-417) runs after
the query write and the spawn, and `_loadReplyFiles` runs only when it
passes. -/
def loadApiEvents (versionString : String) : List LoadEvent :=
  [.findCMake, .readIndex, .createApiQuery, .spawnStart] ++
    (if versionString < "3.13.7" then [.versionError]
     else [.checkApiDir, .loadReplyFiles, .markLoaded])

/-- C3 (divergence): on a successful load (version accepted), `loadApi` reads
the reply files although the spawned build-tool process was never awaited:
the trace contains the reply read but no child-exit wait. -/
theorem loadApi_readsReplies_without_await :
    LoadEvent.loadReplyFiles ∈ loadApiEvents "3.20.0" ∧
    LoadEvent.childExit ∉ loadApiEvents "3.20.0" := by
  have h20 : ¬ ("3.20.0" : String) < "3.13.7" := by
    rw [String.lt_iff_toList_lt]; decide
  simp only [loadApiEvents, if_neg h20]
  exact ⟨by decide, by decide⟩

/-- C4 counterexample: with the pre-existing index reporting version
"3.13.6" (below the minimum), the query document is still written and the
build tool still invoked before the version error is raised, refuting the
claim that the load fails before any query write or regeneration. -/
theorem loadApi_lowVersion_writesQuery_and_spawns :
    loadApiEvents "3.13.6"
      = [.findCMake, .readIndex, .createApiQuery, .spawnStart, .versionError] ∧
    LoadEvent.createApiQuery ∈ loadApiEvents "3.13.6" ∧
    LoadEvent.spawnStart ∈ loadApiEvents "3.13.6" := by
  have h6 : ("3.13.6" : String) < "3.13.7" := by
    rw [String.lt_iff_toList_lt]; decide
  simp only [loadApiEvents, if_pos h6]
  exact ⟨rfl, by decide, by decide⟩

/-- C4 amended: on a version below the minimum, `loadApi` fails with the
version error only after writing the query document and invoking the build
tool, but before any reply file is loaded and before the state is marked
loaded. -/
theorem loadApi_versionGate_before_replyRead (v : String) (h : v < "3.13.7") :
    loadApiEvents v
      = [.findCMake, .readIndex, .createApiQuery, .spawnStart, .versionError] ∧
    LoadEvent.loadReplyFiles ∉ loadApiEvents v ∧
    LoadEvent.markLoaded ∉ loadApiEvents v := by
  simp only [loadApiEvents, if_pos h]
  exact ⟨rfl, by decide, by decide⟩

/-- Witness for the amended C4 at version "3.13.6". -/
theorem loadApi_versionGate_before_replyRead_witness :
    loadApiEvents "3.13.6"
      = [.findCMake, .readIndex, .createApiQuery, .spawnStart, .versionError] ∧
    LoadEvent.loadReplyFiles ∉ loadApiEvents "3.13.6" ∧
    LoadEvent.markLoaded ∉ loadApiEvents "3.13.6" :=
  loadApi_versionGate_before_replyRead "3.13.6"
    (by rw [String.lt_iff_toList_lt]; decide)

/-! ## Reply data model (CMake file-API reply documents) -/

/-- `iterateIfExists(object, property)`: a possibly-absent array-valued
property iterates as itself when present and as the empty array otherwise. -/
def iterateIfExists {α : Type} (o : Option (List α)) : List α := o.getD []

/-- One entry of the cache reply; only `name` and `value` are read. -/
structure CacheEntry where
  name : String
  value : String
  deriving DecidableEq, Repr

/-- Cache reply document `{entries: [...]}`; `entries` may be absent. -/
structure CacheData where
  entries : Option (List CacheEntry)
  deriving DecidableEq, Repr

/-- One target reference of a codemodel configuration: its `jsonFile`. -/
structure TargetRef where
  jsonFile : String
  deriving DecidableEq, Repr

/-- One configuration of the codemodel reply; `targets` may be absent. -/
structure ConfigurationData where
  targets : Option (List TargetRef)
  deriving DecidableEq, Repr

/-- The `paths` object of the codemodel reply. -/
structure PathsData where
  source : String
  deriving DecidableEq, Repr

/-- Codemodel reply `{paths: {source}, configurations: [{targets: [...]}]}`. -/
structure CodemodelData where
  paths : PathsData
  configurations : List ConfigurationData
  deriving DecidableEq, Repr

/-- The `compiler` object of a toolchain entry. -/
structure ToolchainCompiler where
  id : String
  path : String
  version : String
  includeDirectories : List String
  deriving DecidableEq, Repr

/-- One toolchain of the toolchains reply. -/
structure ToolchainEntry where
  language : String
  compiler : ToolchainCompiler
  deriving DecidableEq, Repr

/-- Toolchains reply `{toolchains: [...]}`; `toolchains` may be absent. -/
structure ToolchainsData where
  toolchains : Option (List ToolchainEntry)
  deriving DecidableEq, Repr

/-- One include entry of a compile group. -/
structure IncludeEntry where
  path : String
  isSystem : Bool
  deriving DecidableEq, Repr

/-- One define entry of a compile group. -/
structure DefineEntry where
  define : String
  deriving DecidableEq, Repr

/-- One raw compile-command fragment of a compile group. -/
structure FragmentEntry where
  fragment : String
  deriving DecidableEq, Repr

/-- One compile group of a target reply; every array-valued field may be
absent. -/
structure CompileGroup where
  language : String
  compileCommandFragments : Option (List FragmentEntry)
  includes : Option (List IncludeEntry)
  defines : Option (List DefineEntry)
  sourceIndexes : Option (List Nat)
  deriving DecidableEq, Repr

/-- One source entry of a target reply. -/
structure SourceEntry where
  path : String
  deriving DecidableEq, Repr

/-- Target reply document: its `sources` list and compile groups. -/
structure TargetData where
  sources : List SourceEntry
  compileGroups : Option (List CompileGroup)
  deriving DecidableEq, Repr

/-- The reply files on disk, one partial map per reply kind; `none` models a
missing file, which `_parseReplyFile` turns into a missing-reply error. -/
structure ReplyFilesystem where
  cacheFiles : String → Option CacheData
  codemodelFiles : String → Option CodemodelData
  toolchainsFiles : String → Option ToolchainsData
  targetFiles : String → Option TargetData

/-- One response listed under this client's `query.json` in the reply index. -/
structure ResponseEntry where
  kind : String
  jsonFile : String
  deriving DecidableEq, Repr

/-- The fields of the reply index used by `_loadReplyFiles`:
`version.string` and `reply[clientName]["query.json"].responses`. -/
structure ReplyIndexData where
  versionString : String
  responses : Option (List ResponseEntry)
  deriving DecidableEq, Repr

/-! ## BuildGraphLoader (src/index.js `_loadCache`, `_loadCodemodel`,
`_loadToolchains`, `_loadReplyFiles`, lines 210-338) -/

/-- `_loadCache`: store each entry's name/value pair; a later entry with the
same name overwrites an earlier one, as JavaScript object assignment does. -/
def _loadCache (data : CacheData) (cache0 : String → Option String) :
    String → Option String :=
  (iterateIfExists data.entries).foldl
    (fun c e => fun k => if k = e.name then some e.value else c k) cache0

/-- `_loadCodemodel`: collect `path.join(replyDir, target.jsonFile)` for
every target of the first configuration, and record the source root. An
absent first configuration iterates as empty. -/
def _loadCodemodel (replyDir : String) (data : CodemodelData) :
    List String × String :=
  let targets := match data.configurations.head? with
    | none => []
    | some cfg => iterateIfExists cfg.targets
  (targets.map (fun t => pathJoin replyDir t.jsonFile), data.paths.source)

/-- `_loadToolchains`: record `{path, version, includes}` for each MSVC
toolchain of language C or CXX; throw if neither language resolved one. -/
def _loadToolchains (data : ToolchainsData) :
    Except JsError (Option CompilerInfo × Option CompilerInfo) :=
  let r := (iterateIfExists data.toolchains).foldl
    (fun (acc : Option CompilerInfo × Option CompilerInfo) tc =>
      if tc.language = "C" ∧ tc.compiler.id = "MSVC" then
        (some { path := tc.compiler.path, version := tc.compiler.version,
                includes := tc.compiler.includeDirectories }, acc.2)
      else if tc.language = "CXX" ∧ tc.compiler.id = "MSVC" then
        (acc.1, some { path := tc.compiler.path, version := tc.compiler.version,
                       includes := tc.compiler.includeDirectories })
      else acc)
    (none, none)
  if r.1.isNone && r.2.isNone then .error .msvcRequired
  else .ok r

/-- The fields of `CMakeApi` written while loading replies, together with the
three local flags of `_loadReplyFiles`. -/
structure LoadState where
  cacheLoaded : Bool
  codemodelLoaded : Bool
  toolchainLoaded : Bool
  cache : String → Option String
  targetFilepaths : List String
  sourceRoot : Option String
  cCompilerInfo : Option CompilerInfo
  cxxCompilerInfo : Option CompilerInfo

/-- The state at entry of `_loadReplyFiles`: flags false, fields as left by
the `CMakeApi` constructor. -/
def initialLoadState : LoadState :=
  { cacheLoaded := false, codemodelLoaded := false, toolchainLoaded := false,
    cache := fun _ => none, targetFilepaths := [], sourceRoot := none,
    cCompilerInfo := none, cxxCompilerInfo := none }

/-- One iteration of the response-dispatch loop of `_loadReplyFiles`: switch
on `response.kind`, set the matching flag and load the file; unknown kinds do
nothing. -/
def processResponse (fs : ReplyFilesystem) (replyDir : String)
    (st : LoadState) (r : ResponseEntry) : Except JsError LoadState :=
  if r.kind = "cache" then
    match fs.cacheFiles (pathJoin replyDir r.jsonFile) with
    | none => .error (.missingReplyFile (pathJoin replyDir r.jsonFile))
    | some d => .ok { st with cacheLoaded := true, cache := _loadCache d st.cache }
  else if r.kind = "codemodel" then
    match fs.codemodelFiles (pathJoin replyDir r.jsonFile) with
    | none => .error (.missingReplyFile (pathJoin replyDir r.jsonFile))
    | some d =>
      .ok { st with codemodelLoaded := true,
                    targetFilepaths := st.targetFilepaths ++ (_loadCodemodel replyDir d).1,
                    sourceRoot := some (_loadCodemodel replyDir d).2 }
  else if r.kind = "toolchains" then
    match fs.toolchainsFiles (pathJoin replyDir r.jsonFile) with
    | none => .error (.missingReplyFile (pathJoin replyDir r.jsonFile))
    | some d =>
      match _loadToolchains d with
      | .error e => .error e
      | .ok (c, cxx) =>
        .ok { st with toolchainLoaded := true,
                      cCompilerInfo := c, cxxCompilerInfo := cxx }
  else .ok st

/-- The response-dispatch loop of `_loadReplyFiles`. -/
def processResponses (fs : ReplyFilesystem) (replyDir : String) :
    LoadState → List ResponseEntry → Except JsError LoadState
  | st, [] => .ok st
  | st, r :: rest =>
    match processResponse fs replyDir st r with
    | .error e => .error e
    | .ok st' => processResponses fs replyDir st' rest

/-- `_loadReplyFiles`: check the index version, dispatch every listed
response, then require that the cache and codemodel responses were present
and fall back to cache-based toolchain resolution when the toolchains
response was not. -/
def _loadReplyFiles (fs : ReplyFilesystem) (replyDir : String)
    (index : ReplyIndexData) : Except JsError LoadState :=
  if index.versionString < "3.13.7" then .error .versionTooOld
  else
    match processResponses fs replyDir initialLoadState (iterateIfExists index.responses) with
    | .error e => .error e
    | .ok st =>
      if st.cacheLoaded = false then .error .cacheResponseMissing
      else if st.codemodelLoaded = false then .error .codemodelResponseMissing
      else if st.toolchainLoaded = false then
        match _loadToolchainsFromCache st.cache with
        | .error e => .error e
        | .ok (c, cxx) => .ok { st with cCompilerInfo := c, cxxCompilerInfo := cxx }
      else .ok st

theorem processResponse_flags (fs : ReplyFilesystem) (replyDir : String)
    (st : LoadState) (r : ResponseEntry) (st' : LoadState)
    (h : processResponse fs replyDir st r = .ok st') :
    (r.kind ≠ "cache" → st'.cacheLoaded = st.cacheLoaded) ∧
    (r.kind ≠ "codemodel" → st'.codemodelLoaded = st.codemodelLoaded) ∧
    (r.kind ≠ "toolchains" → st'.toolchainLoaded = st.toolchainLoaded) := by
  unfold processResponse at h
  by_cases h1 : r.kind = "cache"
  · rw [if_pos h1] at h
    cases hm : fs.cacheFiles (pathJoin replyDir r.jsonFile) with
    | none => rw [hm] at h; cases h
    | some d =>
      rw [hm] at h
      injection h with h'
      subst h'
      exact ⟨fun hc => absurd h1 hc, fun _ => rfl, fun _ => rfl⟩
  · rw [if_neg h1] at h
    by_cases h2 : r.kind = "codemodel"
    · rw [if_pos h2] at h
      cases hm : fs.codemodelFiles (pathJoin replyDir r.jsonFile) with
      | none => rw [hm] at h; cases h
      | some d =>
        rw [hm] at h
        injection h with h'
        subst h'
        exact ⟨fun _ => rfl, fun hc => absurd h2 hc, fun _ => rfl⟩
    · rw [if_neg h2] at h
      by_cases h3 : r.kind = "toolchains"
      · rw [if_pos h3] at h
        cases hm : fs.toolchainsFiles (pathJoin replyDir r.jsonFile) with
        | none => rw [hm] at h; cases h
        | some d =>
          rw [hm] at h
          dsimp only at h
          cases ht : _loadToolchains d with
          | error e => rw [ht] at h; cases h
          | ok p =>
            rw [ht] at h
            obtain ⟨c, cxx⟩ := p
            injection h with h'
            subst h'
            exact ⟨fun _ => rfl, fun _ => rfl, fun hc => absurd h3 hc⟩
      · rw [if_neg h3] at h
        injection h with h'
        subst h'
        exact ⟨fun _ => rfl, fun _ => rfl, fun _ => rfl⟩

theorem processResponses_flags (fs : ReplyFilesystem) (replyDir : String) :
    ∀ (rs : List ResponseEntry) (st st' : LoadState),
      processResponses fs replyDir st rs = .ok st' →
      ((∀ r ∈ rs, r.kind ≠ "cache") → st'.cacheLoaded = st.cacheLoaded) ∧
      ((∀ r ∈ rs, r.kind ≠ "codemodel") → st'.codemodelLoaded = st.codemodelLoaded) ∧
      ((∀ r ∈ rs, r.kind ≠ "toolchains") → st'.toolchainLoaded = st.toolchainLoaded) := by
  intro rs
  induction rs with
  | nil =>
    intro st st' h
    injection h with h'
    subst h'
    exact ⟨fun _ => rfl, fun _ => rfl, fun _ => rfl⟩
  | cons r rest ih =>
    intro st st' h
    rw [processResponses] at h
    cases hp : processResponse fs replyDir st r with
    | error e => rw [hp] at h; cases h
    | ok st1 =>
      rw [hp] at h
      obtain ⟨hc1, hm1, ht1⟩ := processResponse_flags fs replyDir st r st1 hp
      obtain ⟨hc2, hm2, ht2⟩ := ih st1 st' h
      refine ⟨fun hall => ?_, fun hall => ?_, fun hall => ?_⟩
      · rw [hc2 (fun x hx => hall x (List.mem_cons_of_mem r hx)),
          hc1 (hall r (List.mem_cons_self r rest))]
      · rw [hm2 (fun x hx => hall x (List.mem_cons_of_mem r hx)),
          hm1 (hall r (List.mem_cons_self r rest))]
      · rw [ht2 (fun x hx => hall x (List.mem_cons_of_mem r hx)),
          ht1 (hall r (List.mem_cons_self r rest))]

/-- C8: when processing the index's client responses, an absent codemodel
response is fatal (a missing-response error) even when the cache (and any
toolchains) responses loaded successfully; an absent cache response is
likewise fatal; an absent toolchains response raises no error and instead
routes the result through the cache-based toolchain fallback. -/
theorem loadReplyFiles_mandatory_and_fallback (fs : ReplyFilesystem)
    (replyDir : String) (index : ReplyIndexData) (st : LoadState)
    (hv : ¬ index.versionString < "3.13.7")
    (hok : processResponses fs replyDir initialLoadState
      (iterateIfExists index.responses) = .ok st) :
    ((∀ r ∈ iterateIfExists index.responses, r.kind ≠ "codemodel") →
      st.cacheLoaded = true →
      _loadReplyFiles fs replyDir index = .error .codemodelResponseMissing) ∧
    ((∀ r ∈ iterateIfExists index.responses, r.kind ≠ "cache") →
      _loadReplyFiles fs replyDir index = .error .cacheResponseMissing) ∧
    ((∀ r ∈ iterateIfExists index.responses, r.kind ≠ "toolchains") →
      st.cacheLoaded = true → st.codemodelLoaded = true →
      _loadReplyFiles fs replyDir index =
        match _loadToolchainsFromCache st.cache with
        | .error e => .error e
        | .ok (c, cxx) => .ok { st with cCompilerInfo := c, cxxCompilerInfo := cxx }) := by
  obtain ⟨hc, hm, ht⟩ := processResponses_flags fs replyDir
    (iterateIfExists index.responses) initialLoadState st hok
  have hunfold : _loadReplyFiles fs replyDir index =
      (if st.cacheLoaded = false then .error .cacheResponseMissing
       else if st.codemodelLoaded = false then .error .codemodelResponseMissing
       else if st.toolchainLoaded = false then
         match _loadToolchainsFromCache st.cache with
         | .error e => .error e
         | .ok (c, cxx) => .ok { st with cCompilerInfo := c, cxxCompilerInfo := cxx }
       else .ok st) := by
    rw [_loadReplyFiles, if_neg hv, hok]
  refine ⟨fun hno hcache => ?_, fun hno => ?_, fun hno hcache hcm => ?_⟩
  · have h1 : st.codemodelLoaded = false := hm hno
    rw [hunfold, if_neg (by simp [hcache]), if_pos h1]
  · have h1 : st.cacheLoaded = false := hc hno
    rw [hunfold, if_pos h1]
  · have h1 : st.toolchainLoaded = false := ht hno
    rw [hunfold, if_neg (by simp [hcache]), if_neg (by simp [hcm]), if_pos h1]

/-- A cache response entry as listed by the reply index. -/
def respCache : ResponseEntry := { kind := "cache", jsonFile := "cache-1.json" }

/-- A codemodel response entry as listed by the reply index. -/
def respCodemodel : ResponseEntry := { kind := "codemodel", jsonFile := "codemodel-1.json" }

/-- A minimal well-formed cache reply document. -/
def dCache : CacheData := { entries := some [] }

/-- A minimal well-formed codemodel reply document. -/
def dCodemodel : CodemodelData := { paths := { source := "C:\\src" }, configurations := [] }

/-- A reply directory holding the cache and codemodel documents above. -/
def fsW : ReplyFilesystem :=
  { cacheFiles := fun _ => some dCache, codemodelFiles := fun _ => some dCodemodel,
    toolchainsFiles := fun _ => none, targetFiles := fun _ => none }

/-- The load state after dispatching only the cache response. -/
def stAfterCache : LoadState :=
  { initialLoadState with cacheLoaded := true,
                          cache := _loadCache dCache initialLoadState.cache }

/-- The load state after dispatching only the codemodel response. -/
def stAfterCodemodel : LoadState :=
  { initialLoadState with
      codemodelLoaded := true,
      targetFilepaths := initialLoadState.targetFilepaths ++ (_loadCodemodel "reply" dCodemodel).1,
      sourceRoot := some (_loadCodemodel "reply" dCodemodel).2 }

/-- The load state after dispatching the cache then the codemodel response. -/
def stAfterCacheCodemodel : LoadState :=
  { stAfterCache with
      codemodelLoaded := true,
      targetFilepaths := stAfterCache.targetFilepaths ++ (_loadCodemodel "reply" dCodemodel).1,
      sourceRoot := some (_loadCodemodel "reply" dCodemodel).2 }

/-- Witness for C8: with only a cache response the load fails with the
codemodel missing-response error; with only a codemodel response it fails
with the cache missing-response error; with cache and codemodel but no
toolchains response it reaches the cache fallback (which here throws on the
empty cache). -/
theorem loadReplyFiles_mandatory_and_fallback_witness :
    _loadReplyFiles fsW "reply" { versionString := "3.20.0", responses := some [respCache] }
      = .error .codemodelResponseMissing ∧
    _loadReplyFiles fsW "reply" { versionString := "3.20.0", responses := some [respCodemodel] }
      = .error .cacheResponseMissing ∧
    _loadReplyFiles fsW "reply" { versionString := "3.20.0", responses := some [respCache, respCodemodel] }
      = .error (.typeError "Cannot read properties of undefined (reading endsWith)") := by
  have hv : ¬ ("3.20.0" : String) < "3.13.7" := by
    rw [String.lt_iff_toList_lt]; decide
  refine ⟨?_, ?_, ?_⟩
  · exact (loadReplyFiles_mandatory_and_fallback fsW "reply"
      { versionString := "3.20.0", responses := some [respCache] } stAfterCache hv rfl).1
      (by decide) rfl
  · exact (loadReplyFiles_mandatory_and_fallback fsW "reply"
      { versionString := "3.20.0", responses := some [respCodemodel] } stAfterCodemodel hv rfl).2.1
      (by decide)
  · exact ((loadReplyFiles_mandatory_and_fallback fsW "reply"
      { versionString := "3.20.0", responses := some [respCache, respCodemodel] }
      stAfterCacheCodemodel hv rfl).2.2 (by decide) rfl rfl).trans rfl

/-! ## CompileCommandReconstructor (src/index.js `_getCompileGroupArguments`
lines 346-371 and `compileCommandsIterator` lines 438-470) -/

/-- The two feature toggles read by `CompilerCommandOptions`. -/
structure CompilerCommandOptions where
  ignoreSystemHeaders : Bool
  usePrecompiledHeaders : Bool
  deriving DecidableEq, Repr

/-- One yielded compile descriptor `{source, args, compiler}`. -/
structure CompileCommand where
  source : String
  args : String
  compiler : CompilerInfo
  deriving DecidableEq, Repr

/-- The fields of `CMakeApi` read by `compileCommandsIterator`. -/
structure CMakeApiState where
  loaded : Bool
  cCompilerInfo : Option CompilerInfo
  cxxCompilerInfo : Option CompilerInfo
  sourceRoot : String
  targetFilepaths : List String

/-- `_getCompileGroupArguments`: push the raw fragments, then one quoted
include flag per include entry (`/external:I` exactly when
`ignoreSystemHeaders` is set and the entry is system, `/I` otherwise), then
one quoted `/D` flag per define entry, and join all pushed arguments with
single spaces. -/
def _getCompileGroupArguments (group : CompileGroup)
    (options : CompilerCommandOptions) : String :=
  let args := (iterateIfExists group.compileCommandFragments).foldl
    (fun acc command => acc ++ [command.fragment]) []
  let args := (iterateIfExists group.includes).foldl
    (fun acc inc =>
      if options.ignoreSystemHeaders && inc.isSystem then
        acc ++ [escapeArgument ("/external:I" ++ inc.path)]
      else
        acc ++ [escapeArgument ("/I" ++ inc.path)]) args
  let args := (iterateIfExists group.defines).foldl
    (fun acc d => acc ++ [escapeArgument ("/D" ++ d.define)]) args
  String.intercalate " " args

/-- The `switch (group.language)` selecting the compiler info; languages
other than C and CXX fall through leaving `compilerInfo` undefined. -/
def languageCompiler (st : CMakeApiState) (language : String) :
    Option CompilerInfo :=
  if language = "C" then st.cCompilerInfo
  else if language = "CXX" then st.cxxCompilerInfo
  else none

/-- The inner loop over `group.sourceIndexes`: resolve each source path
against the source root and yield one descriptor per index. An index outside
`targetData.sources` makes JavaScript read `.path` of `undefined`, a
TypeError. -/
def yieldGroupSources (st : CMakeApiState) (td : TargetData) (args : String)
    (ci : CompilerInfo) : List Nat → Except JsError (List CompileCommand)
  | [] => .ok []
  | idx :: rest =>
    match td.sources[idx]? with
    | none => .error (.typeError "Cannot read properties of undefined (reading path)")
    | some s =>
      match yieldGroupSources st td args ci rest with
      | .error e => .error e
      | .ok cs => .ok ({ source := pathJoin st.sourceRoot s.path,
                         args := args, compiler := ci } :: cs)

/-- Per compile group: select the compiler by the group's language; when none
resolved the group yields nothing; otherwise build the argument string once
and yield one descriptor per source index. -/
def processGroup (st : CMakeApiState) (td : TargetData)
    (options : CompilerCommandOptions) (group : CompileGroup) :
    Except JsError (List CompileCommand) :=
  match languageCompiler st group.language with
  | none => .ok []
  | some ci =>
    yieldGroupSources st td (_getCompileGroupArguments group options) ci
      (iterateIfExists group.sourceIndexes)

/-- The loop over a target's compile groups. -/
def processGroups (st : CMakeApiState) (td : TargetData)
    (options : CompilerCommandOptions) :
    List CompileGroup → Except JsError (List CompileCommand)
  | [] => .ok []
  | g :: rest =>
    match processGroup st td options g with
    | .error e => .error e
    | .ok cs =>
      match processGroups st td options rest with
      | .error e => .error e
      | .ok rest' => .ok (cs ++ rest')

/-- The loop over `this.targetFilepaths`: parse each target reply file and
process its compile groups. -/
def processTargets (fs : ReplyFilesystem) (st : CMakeApiState)
    (options : CompilerCommandOptions) :
    List String → Except JsError (List CompileCommand)
  | [] => .ok []
  | tp :: rest =>
    match fs.targetFiles tp with
    | none => .error (.missingReplyFile tp)
    | some td =>
      match processGroups st td options (iterateIfExists td.compileGroups) with
      | .error e => .error e
      | .ok cs =>
        match processTargets fs st options rest with
        | .error e => .error e
        | .ok rest' => .ok (cs ++ rest')

/-- `compileCommandsIterator` materialized: the descriptors it yields, in
yield order, or the error thrown while iterating. -/
def compileCommandsIterator (fs : ReplyFilesystem) (st : CMakeApiState)
    (options : CompilerCommandOptions) : Except JsError (List CompileCommand) :=
  if st.loaded = false then .error .notLoaded
  else processTargets fs st options st.targetFilepaths

/-- The argument string as the specification words it: the raw fragments
verbatim, then one quoted include flag per include entry, then one quoted
define flag per define entry, joined by single spaces. -/
def specGroupArgs (group : CompileGroup) (options : CompilerCommandOptions) :
    String :=
  String.intercalate " "
    ((iterateIfExists group.compileCommandFragments).map (fun command => command.fragment)
      ++ (iterateIfExists group.includes).map (fun inc =>
            if options.ignoreSystemHeaders && inc.isSystem then
              escapeArgument ("/external:I" ++ inc.path)
            else escapeArgument ("/I" ++ inc.path))
      ++ (iterateIfExists group.defines).map (fun d => escapeArgument ("/D" ++ d.define)))

/-- The descriptor sequence as the specification words it: target order, then
compile-group order within each target, then source-index order within each
group, one descriptor per source index, skipping groups without a resolved
compiler. -/
def specDescriptors (st : CMakeApiState) (options : CompilerCommandOptions)
    (tds : List TargetData) : List CompileCommand :=
  tds.flatMap (fun td =>
    (iterateIfExists td.compileGroups).flatMap (fun g =>
      match languageCompiler st g.language with
      | none => []
      | some ci =>
        (iterateIfExists g.sourceIndexes).map (fun idx =>
          { source := pathJoin st.sourceRoot (td.sources.getD idx { path := "" }).path,
            args := specGroupArgs g options, compiler := ci })))

theorem foldl_push {α β : Type} (f : α → β) (l : List α) :
    ∀ init : List β, l.foldl (fun acc x => acc ++ [f x]) init = init ++ l.map f := by
  induction l with
  | nil => intro init; simp
  | cons x t ih =>
    intro init
    rw [List.foldl_cons, List.map_cons, ih]
    simp

/-- The pushed argument list equals the specification's three mapped blocks in
order. -/
theorem getCompileGroupArguments_eq_spec (group : CompileGroup)
    (options : CompilerCommandOptions) :
    _getCompileGroupArguments group options = specGroupArgs group options := by
  unfold _getCompileGroupArguments specGroupArgs
  have hinc : ∀ (acc : List String) (inc : IncludeEntry),
      (if options.ignoreSystemHeaders && inc.isSystem then
        acc ++ [escapeArgument ("/external:I" ++ inc.path)]
      else acc ++ [escapeArgument ("/I" ++ inc.path)])
      = acc ++ [if options.ignoreSystemHeaders && inc.isSystem then
          escapeArgument ("/external:I" ++ inc.path)
        else escapeArgument ("/I" ++ inc.path)] := by
    intro acc inc
    by_cases hc : options.ignoreSystemHeaders && inc.isSystem
    · rw [if_pos hc, if_pos hc]
    · rw [if_neg hc, if_neg hc]
  simp only [hinc]
  rw [foldl_push, foldl_push, foldl_push]
  simp [List.append_assoc]

/-- Under valid source indexes the inner yield loop produces exactly one
descriptor per index, in order. -/
theorem yieldGroupSources_eq_map (st : CMakeApiState) (td : TargetData)
    (args : String) (ci : CompilerInfo) :
    ∀ idxs : List Nat, (∀ idx ∈ idxs, idx < td.sources.length) →
      yieldGroupSources st td args ci idxs
        = .ok (idxs.map (fun idx =>
            { source := pathJoin st.sourceRoot (td.sources.getD idx { path := "" }).path,
              args := args, compiler := ci })) := by
  intro idxs
  induction idxs with
  | nil => intro _; rfl
  | cons i t ih =>
    intro h
    have hi : i < td.sources.length := h i (List.mem_cons_self i t)
    have ht : ∀ idx ∈ t, idx < td.sources.length :=
      fun idx hm => h idx (List.mem_cons_of_mem i hm)
    rw [yieldGroupSources, List.getElem?_eq_getElem hi, ih ht, List.map_cons]
    rw [List.getD_eq_getElem td.sources { path := "" } hi]

/-- Under valid source indexes the per-target group loop produces the
specification's group-ordered concatenation. -/
theorem processGroups_eq_spec (st : CMakeApiState) (td : TargetData)
    (options : CompilerCommandOptions) :
    ∀ gs : List CompileGroup,
      (∀ g ∈ gs, ∀ idx ∈ iterateIfExists g.sourceIndexes, idx < td.sources.length) →
      processGroups st td options gs
        = .ok (gs.flatMap (fun g =>
            match languageCompiler st g.language with
            | none => []
            | some ci =>
              (iterateIfExists g.sourceIndexes).map (fun idx =>
                { source := pathJoin st.sourceRoot (td.sources.getD idx { path := "" }).path,
                  args := specGroupArgs g options, compiler := ci }))) := by
  intro gs
  induction gs with
  | nil => intro _; rfl
  | cons g t ih =>
    intro h
    have hg : ∀ idx ∈ iterateIfExists g.sourceIndexes, idx < td.sources.length :=
      h g (List.mem_cons_self g t)
    have ht : ∀ g' ∈ t, ∀ idx ∈ iterateIfExists g'.sourceIndexes, idx < td.sources.length :=
      fun g' hm => h g' (List.mem_cons_of_mem g hm)
    rw [processGroups, List.flatMap_cons, ih ht]
    unfold processGroup
    cases hl : languageCompiler st g.language with
    | none => rfl
    | some ci =>
      dsimp only
      rw [yieldGroupSources_eq_map st td (_getCompileGroupArguments g options) ci
        (iterateIfExists g.sourceIndexes) hg,
        getCompileGroupArguments_eq_spec]

theorem processTargets_eq_spec (fs : ReplyFilesystem) (st : CMakeApiState)
    (options : CompilerCommandOptions) :
    ∀ (tps : List String) (tds : List TargetData),
      List.Forall₂ (fun tp td => fs.targetFiles tp = some td) tps tds →
      (∀ td ∈ tds, ∀ g ∈ iterateIfExists td.compileGroups,
        ∀ idx ∈ iterateIfExists g.sourceIndexes, idx < td.sources.length) →
      processTargets fs st options tps = .ok (specDescriptors st options tds) := by
  intro tps tds hft
  induction hft with
  | nil => intro _; rfl
  | @cons tp td tps' tds' h1 h2 ih =>
    intro hvalid
    have hv1 : ∀ g ∈ iterateIfExists td.compileGroups,
        ∀ idx ∈ iterateIfExists g.sourceIndexes, idx < td.sources.length :=
      hvalid td (List.mem_cons_self td tds')
    have hv2 : ∀ td' ∈ tds', ∀ g ∈ iterateIfExists td'.compileGroups,
        ∀ idx ∈ iterateIfExists g.sourceIndexes, idx < td'.sources.length :=
      fun td' hm => hvalid td' (List.mem_cons_of_mem td hm)
    rw [processTargets, h1]
    dsimp only
    rw [processGroups_eq_spec st td options (iterateIfExists td.compileGroups) hv1]
    dsimp only
    rw [ih hv2]
    dsimp only
    simp [specDescriptors]

/-- C1: for every loaded state and every option setting, the iterator yields
descriptors in target order, then compile-group order within each target,
then source-index order within each group, exactly one per source index, and
each group's args string is the space-joined concatenation of the raw
fragments, the quoted include flags (`/external:I` exactly when
`ignoreSystemHeaders` is set and the entry is system, `/I` otherwise) and the
quoted `/D` define flags. -/
theorem compileCommandsIterator_spec (fs : ReplyFilesystem)
    (st : CMakeApiState) (options : CompilerCommandOptions)
    (tds : List TargetData)
    (hl : st.loaded = true)
    (hts : List.Forall₂ (fun tp td => fs.targetFiles tp = some td)
      st.targetFilepaths tds)
    (hvalid : ∀ td ∈ tds, ∀ g ∈ iterateIfExists td.compileGroups,
      ∀ idx ∈ iterateIfExists g.sourceIndexes, idx < td.sources.length) :
    compileCommandsIterator fs st options = .ok (specDescriptors st options tds) := by
  rw [compileCommandsIterator, if_neg (by simp [hl])]
  exact processTargets_eq_spec fs st options st.targetFilepaths tds hts hvalid

/-- The C++ compiler info used by the concrete examples. -/
def msvcCxx : CompilerInfo :=
  { path := "C:\\VS\\cl.exe", version := "14.29", includes := [] }

/-- A C++ compile group with one fragment, one include, one define and one
source index. -/
def groupCxx : CompileGroup :=
  { language := "CXX", compileCommandFragments := some [{ fragment := "-O2" }],
    includes := some [{ path := "C:\\inc", isSystem := false }],
    defines := some [{ define := "FOO=1" }], sourceIndexes := some [0] }

/-- A target with one source file and the C++ compile group above. -/
def tdMain : TargetData :=
  { sources := [{ path := "main.cpp" }], compileGroups := some [groupCxx] }

/-- A reply directory holding the target document above. -/
def fsTarget : ReplyFilesystem :=
  { cacheFiles := fun _ => none, codemodelFiles := fun _ => none,
    toolchainsFiles := fun _ => none, targetFiles := fun _ => some tdMain }

/-- A loaded state with a C++ compiler and one target file path. -/
def stLoaded : CMakeApiState :=
  { loaded := true, cCompilerInfo := none, cxxCompilerInfo := some msvcCxx,
    sourceRoot := "C:\\src", targetFilepaths := ["target-main.json"] }

/-- Options with both feature toggles off. -/
def optsNoExternal : CompilerCommandOptions :=
  { ignoreSystemHeaders := false, usePrecompiledHeaders := false }

/-- Witness for C1 at one target with one C++ compile group. -/
theorem compileCommandsIterator_spec_witness :
    compileCommandsIterator fsTarget stLoaded optsNoExternal
      = .ok (specDescriptors stLoaded optsNoExternal [tdMain]) :=
  compileCommandsIterator_spec fsTarget stLoaded optsNoExternal [tdMain] rfl
    (List.Forall₂.cons rfl List.Forall₂.nil) (by decide)

/-- C9: a compile group whose language is neither C nor CXX, or whose
language has no resolved compiler, yields zero descriptors and raises no
error, and iteration continues with the remaining groups: removing such a
group from anywhere in a target's group list leaves the result unchanged. -/
theorem unsupportedGroup_skipped (st : CMakeApiState) (td : TargetData)
    (options : CompilerCommandOptions) (g : CompileGroup)
    (h : (g.language ≠ "C" ∧ g.language ≠ "CXX")
      ∨ languageCompiler st g.language = none) :
    processGroup st td options g = .ok [] ∧
    ∀ gs1 gs2 : List CompileGroup,
      processGroups st td options (gs1 ++ g :: gs2)
        = processGroups st td options (gs1 ++ gs2) := by
  have hnone : languageCompiler st g.language = none := by
    rcases h with ⟨h1, h2⟩ | h3
    · rw [languageCompiler, if_neg h1, if_neg h2]
    · exact h3
  have hpg : processGroup st td options g = .ok [] := by
    rw [processGroup, hnone]
  refine ⟨hpg, fun gs1 gs2 => ?_⟩
  induction gs1 with
  | nil =>
    rw [List.nil_append, List.nil_append, processGroups, hpg]
    cases hr : processGroups st td options gs2 with
    | error e => rfl
    | ok cs => dsimp only; rw [List.nil_append]
  | cons a t ih =>
    rw [List.cons_append, List.cons_append]
    simp only [processGroups]
    rw [ih]

/-- A Fortran compile group (unsupported language). -/
def groupFortran : CompileGroup :=
  { language := "Fortran", compileCommandFragments := none,
    includes := none, defines := none, sourceIndexes := some [0] }

/-- Witness for C9 at a Fortran compile group placed after a C++ group. -/
theorem unsupportedGroup_skipped_witness :
    processGroup stLoaded tdMain optsNoExternal groupFortran = .ok [] ∧
    processGroups stLoaded tdMain optsNoExternal ([groupCxx] ++ groupFortran :: [])
      = processGroups stLoaded tdMain optsNoExternal ([groupCxx] ++ []) := by
  have h := unsupportedGroup_skipped stLoaded tdMain optsNoExternal groupFortran
    (Or.inl ⟨by decide, by decide⟩)
  exact ⟨h.1, h.2 [groupCxx] []⟩
